import Mathlib

set_option maxHeartbeats 1000000

/-!
Verification development for the SafeStreetCanada dashboard scripts
(`final.py` and `polish.py`).  The two scripts share one piece of original
logic: reconstruct a neighborhood label from one-hot indicator columns
(`idxmax` followed by two regex substitutions), score each record, group by
the reconstructed label, take the per-group mean of
`Severe_Accident_Probability`, sort descending, keep the first 20 rows,
color the first five red and the rest blue, and (in `final.py` only)
linearly normalize the retained probabilities into a map-marker radius.

The embedding below mirrors those operations over `ℚ` (the scripts use
float64; all claim-relevant arithmetic is exact) and models a loaded pandas
dataframe as a list of column names plus numeric rows.  Operations that can
raise in Python (`groupby` on a missing column, column selection with
missing labels, `idxmax` over zero columns) return `Except`; float division
by zero, which yields a NaN under numpy, is modelled as `Option.none`.
-/

/-- Python regex whitespace class membership, for the characters relevant to
the patterns in the scripts (ASCII range of `\s`). -/
def isPySpace (c : Char) : Bool :=
  c == ' ' || c == '\t' || c == '\n' || c == '\r' || c == Char.ofNat 11 || c == Char.ofNat 12

/-- The literal head of the pattern `NEIGHBOURHOOD_\d+_` from
`data['NEIGHBOURHOOD'].str.replace(r'NEIGHBOURHOOD_\d+_', '', regex=True)`. -/
def nbLit : List Char := "NEIGHBOURHOOD_".toList

/-- Consume an exact literal from the front of a character list, returning
the remainder on success. -/
def dropLit : List Char → List Char → Option (List Char)
  | [], cs => some cs
  | _ :: _, [] => none
  | l :: ls, c :: cs => if c = l then dropLit ls cs else none

/-- Match the regex `NEIGHBOURHOOD_\d+_` at the start of the input,
returning the remainder after the match.  `\d+` is greedy; since a shorter
digit run would be followed by a digit (never `_`), maximal-run matching is
exactly the backtracking semantics. -/
def matchNb (cs : List Char) : Option (List Char) :=
  match dropLit nbLit cs with
  | none => none
  | some r =>
    if (r.takeWhile Char.isDigit).isEmpty then none
    else
      match r.dropWhile Char.isDigit with
      | '_' :: r3 => some r3
      | _ => none

/-- Match the regex `\s*\(\d+\)` at the start of the input (from
`str.replace(r'\s*\(\d+\)', '', regex=True)`), returning the remainder.
Both quantified classes are maximal runs, which again coincides with the
backtracking semantics. -/
def matchParen (cs : List Char) : Option (List Char) :=
  match cs.dropWhile isPySpace with
  | '(' :: r2 =>
    if (r2.takeWhile Char.isDigit).isEmpty then none
    else
      match r2.dropWhile Char.isDigit with
      | ')' :: r4 => some r4
      | _ => none
  | _ => none

/-- One left-to-right pass of `re.sub(pattern, '', s)` for a matcher `m`
that tries the pattern at the current position: on a match, drop the
matched characters and continue after them, otherwise keep the character
and move one position right.  The `ℕ` argument is recursion fuel; callers
supply the input length, which is always sufficient because every match
consumes at least one character. -/
def subGo (m : List Char → Option (List Char)) : ℕ → List Char → List Char
  | _, [] => []
  | 0, c :: cs => c :: cs
  | n + 1, c :: cs =>
    match m (c :: cs) with
    | some r => subGo m n r
    | none => c :: subGo m n cs

/-- The regex substitution `re.sub(pattern, '', s)` realized by `subGo`
with adequate fuel. -/
def reSub (m : List Char → Option (List Char)) (cs : List Char) : List Char :=
  subGo m cs.length cs

/-- Decidable check that the matcher fails at every position of the input;
used to state which display names survive a substitution pass unchanged. -/
def noMatch (m : List Char → Option (List Char)) : List Char → Bool
  | [] => true
  | c :: cs => (m (c :: cs)).isNone && noMatch m cs

/-- Decidable check that, scanning `disp ++ tl`, no match starts at any
position inside `disp` (matches may inspect `tl`, e.g. a whitespace run
extending into it). -/
def scanKeeps (m : List Char → Option (List Char)) : List Char → List Char → Bool
  | [], _ => true
  | c :: cs, tl => (m (c :: cs ++ tl)).isNone && scanKeeps m cs tl

/-- Lines 59-60 of `final.py` (lines 33-35 of `polish.py`): strip every
occurrence of `NEIGHBOURHOOD_\d+_`, then every occurrence of
`\s*\(\d+\)`. -/
def stripLabel (s : String) : String :=
  String.mk (reSub matchParen (reSub matchNb s.data))

/-- Fold step of pandas `idxmax(axis=1)`: the current best (name, value)
pair is replaced only on a strictly greater value, so the first maximal
column wins. -/
def idxmaxGo (best : String × ℚ) : List (String × ℚ) → String
  | [] => best.1
  | q :: qs => if best.2 < q.2 then idxmaxGo q qs else idxmaxGo best qs

/-- pandas `DataFrame.idxmax(axis=1)` on one row, given the (column name,
value) pairs in column order; `none` for zero columns (pandas raises). -/
def idxmaxRow : List (String × ℚ) → Option String
  | [] => none
  | p :: ps => some (idxmaxGo p ps)

/-- The per-record label reconstruction of lines 58-60 of `final.py`:
`idxmax` over the indicator columns followed by the two substitutions. -/
def reconstructLabel (indicators : List (String × ℚ)) : String :=
  match idxmaxRow indicators with
  | some n => stripLabel n
  | none => ""

/-- Insertion step of an ascending stable sort on strings; pandas
`groupby(sort=True)` returns its group keys in this order. -/
def insertAsc (x : String) : List String → List String
  | [] => [x]
  | y :: l => if x ≤ y then x :: y :: l else y :: insertAsc x l

/-- Ascending sort of the group keys, as produced by pandas `groupby`. -/
def sortAsc : List String → List String
  | [] => []
  | x :: l => insertAsc x (sortAsc l)

/-- The distinct neighborhood labels of the scored records, in the
ascending order in which `groupby('NEIGHBOURHOOD')` emits them. -/
def groupLabels (records : List (String × ℚ)) : List String :=
  sortAsc (records.map Prod.fst).dedup

/-- The `.mean()` aggregation of line 79 of `final.py`: arithmetic mean of
`Severe_Accident_Probability` over the records carrying label `l`. -/
def groupMean (records : List (String × ℚ)) (l : String) : ℚ :=
  ((records.filter (fun r => r.1 = l)).map Prod.snd).sum /
    ((records.filter (fun r => r.1 = l)).length : ℚ)

/-- The grouped-and-aggregated table (`groupby ... .mean().reset_index()`):
one `(label, mean)` row per distinct label, labels ascending. -/
def grouped (records : List (String × ℚ)) : List (String × ℚ) :=
  (groupLabels records).map (fun l => (l, groupMean records l))

/-- Insertion step of the descending sort on the mean column: an incoming
row is placed before the first existing row whose mean is at most its own.
This is one concrete descending sort; pandas' default `kind='quicksort'`
(numpy introsort) leaves the relative order of rows with exactly equal
means implementation-defined, so the development below only proves
properties of the result that are insensitive to the tie order this
particular insertion picks. -/
def insertDesc (x : String × ℚ) : List (String × ℚ) → List (String × ℚ)
  | [] => [x]
  | y :: l => if y.2 ≤ x.2 then x :: y :: l else y :: insertDesc x l

/-- The `sort_values(by='Severe_Accident_Probability', ascending=False)`
step, determinized as an insertion sort.  The output is descending in the
mean column; the source's order among rows with exactly equal means is
implementation-defined (unstable quicksort), and no theorem below depends
on the tie order this determinization produces. -/
def sortDesc : List (String × ℚ) → List (String × ℚ)
  | [] => []
  | x :: l => insertDesc x (sortDesc l)

/-- Lines 77-83 of `final.py` (46-52 of `polish.py`): group, aggregate by
mean, sort descending on the mean, keep the first 20 rows. -/
def topAreas (records : List (String × ℚ)) : List (String × ℚ) :=
  (sortDesc (grouped records)).take 20

/-- The color column of line 86 of `final.py` (55 of `polish.py`):
`['red' if i < 5 else 'blue' for i in range(len(top_areas))]`, with `i`
the running row index. -/
def colorizeGo : ℕ → List (String × ℚ) → List (String × ℚ × String)
  | _, [] => []
  | i, e :: es => (e.1, e.2, if i < 5 then "red" else "blue") :: colorizeGo (i + 1) es

/-- The ranked table together with its color column. -/
def topAreasColored (records : List (String × ℚ)) : List (String × ℚ × String) :=
  colorizeGo 0 (topAreas records)

/-- Strict order used to reason about the sorted table: strictly larger
mean first, ascending label on exactly equal means.  The embedded sort
satisfies it; the claims below extract from it only facts that hold for
every descending-by-mean order (e.g. that every dropped row's mean is at
most every kept row's). -/
def rankRel (a b : String × ℚ) : Prop :=
  b.2 < a.2 ∨ (a.2 = b.2 ∧ a.1 < b.1)

instance : DecidableRel rankRel := fun a b => by
  unfold rankRel; infer_instance

/-- Float division as numpy evaluates it inside the radius lambda: a zero
denominator produces a NaN (no exception), modelled as `none`. -/
def npDiv (a b : ℚ) : Option ℚ :=
  if b = 0 then none else some (a / b)

/-- Lines 138-144 of `final.py`: `prob_min`/`prob_max` over the retained
rows and the unguarded linear interpolation
`min_radius + (x - prob_min) / (prob_max - prob_min) * (max_radius - min_radius)`
with `min_radius = 200`, `max_radius = 800`.  The radius is `none` exactly
when the float result would be NaN. -/
def addRadius : List (String × ℚ) → List (String × ℚ × Option ℚ)
  | [] => []
  | e :: es =>
    (e :: es).map (fun x =>
      (x.1, x.2,
        (npDiv (x.2 - ((e :: es).map Prod.snd).foldl min e.2)
            (((e :: es).map Prod.snd).foldl max e.2 -
              ((e :: es).map Prod.snd).foldl min e.2)).map
          (fun t => 200 + t * (800 - 200))))

/-- A loaded dataframe: the column names and the numeric rows (row `i`
holds the values of the columns in order). -/
structure DataF where
  cols : List String
  rows : List (List ℚ)

/-- The value of column `c` in a row (0 when the column is absent; the
pipelines only read present columns on claim-relevant paths). -/
def colVal (cols : List String) (row : List ℚ) (c : String) : ℚ :=
  match cols.findIdx? (fun d => d = c) with
  | some i => row.getD i 0
  | none => 0

/-- The test `col.startswith('NEIGHBOURHOOD_')` of line 55 of `final.py`
(line 28 of `polish.py`). -/
def isNbCol (c : String) : Bool :=
  (dropLit nbLit c.data).isSome

/-- `neigh_cols`: the indicator columns, in dataframe column order. -/
def neighColsOf (df : DataF) : List String :=
  df.cols.filter isNbCol

/-- The reconstructed label of one row: `idxmax` over the indicator
columns, then the two substitutions. -/
def labelOfRow (neighCols : List String) (cols : List String) (row : List ℚ) : String :=
  reconstructLabel (neighCols.map (fun c => (c, colVal cols row c)))

/-- Warning text of line 62 of `final.py`. -/
def warnNoNeigh : String := "No neighborhood columns found in data."

/-- Warning text of line 71 of `final.py`. -/
def warnNoFeatures : String := "Required feature columns not found. Predictions cannot be made."

/-- Lines 55-86 of `final.py`: identify indicator columns (warning when
none), reconstruct labels, score each row through the model when all
feature columns are present in `data.columns` (which already contains the
added `NEIGHBOURHOOD` column) and otherwise set every probability to 0
with a warning, then group, rank, truncate and color.  When no indicator
column exists the `NEIGHBOURHOOD` column is never created and
`groupby('NEIGHBOURHOOD')` on line 78 raises a `KeyError`, modelled as
`Except.error`.  The first component collects the surfaced warnings. -/
def finalRun (features : List String) (model : List ℚ → ℚ) (df : DataF) :
    List String × Except String (List (String × ℚ × String)) :=
  let neighCols := neighColsOf df
  let warns1 := if neighCols.isEmpty then [warnNoNeigh] else []
  let colsAfter := if neighCols.isEmpty then df.cols else df.cols ++ ["NEIGHBOURHOOD"]
  let haveF := features.all (fun c => colsAfter.contains c)
  let warns2 := if haveF then [] else [warnNoFeatures]
  if neighCols.isEmpty then
    (warns1 ++ warns2, Except.error "KeyError: NEIGHBOURHOOD")
  else
    (warns1 ++ warns2,
      Except.ok (topAreasColored (df.rows.map (fun row =>
        (labelOfRow neighCols df.cols row,
          if haveF then 100 * model (features.map (colVal df.cols row)) else 0)))))

/-- Lines 28-55 of `polish.py`: the same flow with no guards.
`data[neigh_cols].idxmax(axis=1)` raises on zero indicator columns when
rows exist, and `data[features_columns]` raises when a feature column is
missing (the dataframe holds the added `NEIGHBOURHOOD` column by then);
both are modelled as `Except.error`. -/
def polishRun (features : List String) (model : List ℚ → ℚ) (df : DataF) :
    Except String (List (String × ℚ × String)) :=
  let neighCols := neighColsOf df
  if neighCols.isEmpty ∧ df.rows ≠ [] then
    Except.error "ValueError: attempt to get argmax of an empty sequence"
  else if (features.all (fun c => (df.cols ++ ["NEIGHBOURHOOD"]).contains c)) = false then
    Except.error "KeyError: missing feature columns"
  else
    Except.ok (topAreasColored (df.rows.map (fun row =>
      (labelOfRow neighCols df.cols row,
        100 * model (features.map (colVal df.cols row))))))

/-! ### Lemmas about the literal matcher and the substitution pass -/

theorem dropLit_append (l x : List Char) : dropLit l (l ++ x) = some x := by
  induction l with
  | nil => rfl
  | cons c cs ih => simp [dropLit, ih]

theorem dropLit_length {ls cs r : List Char} (h : dropLit ls cs = some r) :
    cs.length = ls.length + r.length := by
  induction ls generalizing cs with
  | nil =>
    simp only [dropLit, Option.some.injEq] at h
    simp [h]
  | cons l ls ih =>
    cases cs with
    | nil => simp [dropLit] at h
    | cons c cs =>
      by_cases hc : c = l
      · simp only [dropLit, if_pos hc] at h
        have := ih h
        simp [this]
        omega
      · simp [dropLit, hc] at h

theorem nbLit_length : nbLit.length = 14 := by decide

theorem takeWhile_all_append (p : Char → Bool) (ds : List Char) (x : Char) (rest : List Char)
    (h : ∀ c ∈ ds, p c = true) (hx : p x = false) :
    (ds ++ x :: rest).takeWhile p = ds ∧ (ds ++ x :: rest).dropWhile p = x :: rest := by
  induction ds with
  | nil => simp [List.takeWhile_cons, List.dropWhile_cons, hx]
  | cons d ds ih =>
    have hd : p d = true := h d (by simp)
    have hrest := ih (fun c hc => h c (by simp [hc]))
    simp [List.takeWhile_cons, List.dropWhile_cons, hd, hrest.1, hrest.2]

theorem matchNb_front (code rest : List Char) (hne : code.isEmpty = false)
    (hd : ∀ c ∈ code, Char.isDigit c = true) :
    matchNb (nbLit ++ (code ++ '_' :: rest)) = some rest := by
  have h1 : dropLit nbLit (nbLit ++ (code ++ '_' :: rest)) = some (code ++ '_' :: rest) :=
    dropLit_append _ _
  have h2 := takeWhile_all_append Char.isDigit code '_' rest hd (by decide)
  unfold matchNb
  rw [h1]
  simp [h2.1, h2.2, hne]

theorem matchParen_front (num : List Char) (hne : num.isEmpty = false)
    (hd : ∀ c ∈ num, Char.isDigit c = true) :
    matchParen (' ' :: '(' :: (num ++ [')'])) = some [] := by
  have h2 := takeWhile_all_append Char.isDigit num ')' [] hd (by decide)
  have hws : (' ' :: '(' :: (num ++ [')'])).dropWhile isPySpace = '(' :: (num ++ [')']) := by
    simp [List.dropWhile_cons, isPySpace]
  unfold matchParen
  rw [hws]
  simp [h2.1, h2.2, hne]

theorem matchNb_lt (cs r : List Char) (h : matchNb cs = some r) : r.length < cs.length := by
  unfold matchNb at h
  split at h
  · exact absurd h (by simp)
  · rename_i r1 hdl
    have hlen := dropLit_length hdl
    rw [nbLit_length] at hlen
    split at h
    · exact absurd h (by simp)
    · have hsub : (r1.dropWhile Char.isDigit).length ≤ r1.length :=
        (List.dropWhile_sublist Char.isDigit).length_le
      split at h
      · rename_i r3 hdw
        cases h
        rw [hdw] at hsub
        simp only [List.length_cons] at hsub
        omega
      · exact absurd h (by simp)

theorem matchParen_lt (cs r : List Char) (h : matchParen cs = some r) : r.length < cs.length := by
  unfold matchParen at h
  have hws : (cs.dropWhile isPySpace).length ≤ cs.length :=
    (List.dropWhile_sublist isPySpace).length_le
  split at h
  · rename_i r2 hdw
    rw [hdw] at hws
    simp only [List.length_cons] at hws
    have hd2 : (r2.dropWhile Char.isDigit).length ≤ r2.length :=
      (List.dropWhile_sublist Char.isDigit).length_le
    split at h
    · exact absurd h (by simp)
    · split at h
      · rename_i r4 hdd
        cases h
        rw [hdd] at hd2
        simp only [List.length_cons] at hd2
        omega
      · exact absurd h (by simp)
  · exact absurd h (by simp)

theorem subGo_irrel (m : List Char → Option (List Char))
    (hm : ∀ cs r, m cs = some r → r.length < cs.length) :
    ∀ (a b : ℕ) (cs : List Char), cs.length ≤ a → cs.length ≤ b →
      subGo m a cs = subGo m b cs := by
  intro a
  induction a with
  | zero =>
    intro b cs ha hb
    have : cs = [] := List.length_eq_zero.mp (Nat.le_zero.mp ha)
    subst this
    cases b <;> rfl
  | succ n ih =>
    intro b cs ha hb
    cases cs with
    | nil => cases b <;> rfl
    | cons c cs =>
      cases b with
      | zero => exact absurd hb (by simp)
      | succ b =>
        show (match m (c :: cs) with
          | some r => subGo m n r
          | none => c :: subGo m n cs) =
          (match m (c :: cs) with
          | some r => subGo m b r
          | none => c :: subGo m b cs)
        cases hmc : m (c :: cs) with
        | some r =>
          have := hm (c :: cs) r hmc
          simp only [List.length_cons] at ha hb this
          exact ih b r (by omega) (by omega)
        | none =>
          simp only [List.length_cons] at ha hb
          exact congrArg (c :: ·) (ih b cs (by omega) (by omega))

theorem reSub_nil (m : List Char → Option (List Char)) : reSub m [] = [] := rfl

theorem reSub_cons_none (m : List Char → Option (List Char)) (c : Char) (cs : List Char)
    (h : m (c :: cs) = none) : reSub m (c :: cs) = c :: reSub m cs := by
  show (match m (c :: cs) with
    | some r => subGo m cs.length r
    | none => c :: subGo m cs.length cs) = c :: reSub m cs
  rw [h]
  rfl

theorem reSub_of_match (m : List Char → Option (List Char))
    (hm : ∀ cs r, m cs = some r → r.length < cs.length)
    (cs r : List Char) (h : m cs = some r) : reSub m cs = reSub m r := by
  cases cs with
  | nil => exact absurd (hm [] r h) (by simp)
  | cons c cs =>
    have hr := hm (c :: cs) r h
    show (match m (c :: cs) with
      | some r => subGo m cs.length r
      | none => c :: subGo m cs.length cs) = reSub m r
    rw [h]
    exact subGo_irrel m hm cs.length r.length r (by simpa [Nat.lt_succ_iff] using hr) le_rfl

theorem reSub_of_noMatch (m : List Char → Option (List Char)) :
    ∀ cs : List Char, noMatch m cs = true → reSub m cs = cs := by
  intro cs
  induction cs with
  | nil => intro _; rfl
  | cons c cs ih =>
    intro h
    simp only [noMatch, Bool.and_eq_true, Option.isNone_iff_eq_none] at h
    rw [reSub_cons_none m c cs h.1, ih h.2]

theorem reSub_append_of_scanKeeps (m : List Char → Option (List Char)) :
    ∀ disp tl : List Char, scanKeeps m disp tl = true →
      reSub m (disp ++ tl) = disp ++ reSub m tl := by
  intro disp
  induction disp with
  | nil => intro tl _; rfl
  | cons c cs ih =>
    intro tl h
    simp only [scanKeeps, Bool.and_eq_true, Option.isNone_iff_eq_none] at h
    show reSub m (c :: (cs ++ tl)) = c :: (cs ++ reSub m tl)
    rw [reSub_cons_none m c (cs ++ tl) h.1, ih tl h.2]

/-- The two substitution passes on a well-formed indicator-column name: the
`NEIGHBOURHOOD_<code>_` head is removed by the first pass (and fires
nowhere else), the ` (<num>)` tail is removed by the second pass (and no
match starts inside the display name), leaving exactly the display name. -/
theorem stripLabel_eq (code disp num : List Char) (name : String)
    (hname : name.data = nbLit ++ (code ++ '_' :: (disp ++ ' ' :: '(' :: (num ++ [')']))))
    (hcode : code.isEmpty = false) (hcodeD : ∀ c ∈ code, Char.isDigit c = true)
    (hnum : num.isEmpty = false) (hnumD : ∀ c ∈ num, Char.isDigit c = true)
    (hnb : noMatch matchNb (disp ++ ' ' :: '(' :: (num ++ [')'])) = true)
    (hsk : scanKeeps matchParen disp (' ' :: '(' :: (num ++ [')'])) = true) :
    stripLabel name = String.mk disp := by
  unfold stripLabel
  rw [hname]
  rw [reSub_of_match matchNb matchNb_lt _ _ (matchNb_front code _ hcode hcodeD)]
  rw [reSub_of_noMatch matchNb _ hnb]
  rw [reSub_append_of_scanKeeps matchParen disp _ hsk]
  rw [reSub_of_match matchParen matchParen_lt _ _ (matchParen_front num hnum hnumD)]
  rw [reSub_nil]
  rw [List.append_nil]

/-! ### Lemmas about `idxmax` on a one-hot row -/

theorem idxmaxGo_skip (best : String × ℚ) :
    ∀ l : List (String × ℚ), (∀ q ∈ l, ¬ best.2 < q.2) → idxmaxGo best l = best.1 := by
  intro l
  induction l with
  | nil => intro _; rfl
  | cons q qs ih =>
    intro h
    show (if best.2 < q.2 then idxmaxGo q qs else idxmaxGo best qs) = best.1
    rw [if_neg (h q (by simp))]
    exact ih (fun p hp => h p (by simp [hp]))

theorem idxmaxGo_onehot (name : String) :
    ∀ (pre : List (String × ℚ)) (best : String × ℚ) (post : List (String × ℚ)),
      best.2 = 0 → (∀ p ∈ pre, p.2 = 0) → (∀ p ∈ post, p.2 = 0) →
      idxmaxGo best (pre ++ (name, 1) :: post) = name := by
  intro pre
  induction pre with
  | nil =>
    intro best post hbest _ hpost
    show (if best.2 < 1 then idxmaxGo (name, 1) post else idxmaxGo best post) = name
    rw [if_pos (by rw [hbest]; norm_num)]
    exact idxmaxGo_skip (name, 1) post (fun q hq => by rw [hpost q hq]; norm_num)
  | cons p pre ih =>
    intro best post hbest hpre hpost
    show (if best.2 < p.2 then idxmaxGo p (pre ++ (name, 1) :: post)
      else idxmaxGo best (pre ++ (name, 1) :: post)) = name
    rw [if_neg (by rw [hbest, hpre p (by simp)]; norm_num)]
    exact ih best post hbest (fun q hq => hpre q (by simp [hq])) hpost

theorem idxmaxRow_onehot (pre post : List (String × ℚ)) (name : String)
    (hpre : ∀ p ∈ pre, p.2 = 0) (hpost : ∀ p ∈ post, p.2 = 0) :
    idxmaxRow (pre ++ (name, 1) :: post) = some name := by
  cases pre with
  | nil =>
    show some (idxmaxGo (name, 1) post) = some name
    rw [idxmaxGo_skip (name, 1) post (fun q hq => by rw [hpost q hq]; norm_num)]
  | cons p pre =>
    show some (idxmaxGo p (pre ++ (name, 1) :: post)) = some name
    rw [idxmaxGo_onehot name pre p post (hpre p (by simp))
      (fun q hq => hpre q (by simp [hq])) hpost]

/-! ### Lemmas about the sorting and ranking engine -/

theorem insertAsc_perm (x : String) : ∀ l : List String, List.Perm (insertAsc x l) (x :: l) := by
  intro l
  induction l with
  | nil => exact List.Perm.refl _
  | cons y l ih =>
    show List.Perm (if x ≤ y then x :: y :: l else y :: insertAsc x l) (x :: y :: l)
    by_cases h : x ≤ y
    · rw [if_pos h]
    · rw [if_neg h]
      exact (ih.cons y).trans (List.Perm.swap x y l)

theorem sortAsc_perm : ∀ l : List String, List.Perm (sortAsc l) l := by
  intro l
  induction l with
  | nil => exact List.Perm.refl _
  | cons x l ih =>
    show List.Perm (insertAsc x (sortAsc l)) (x :: l)
    exact (insertAsc_perm x (sortAsc l)).trans (ih.cons x)

theorem insertAsc_pairwise (x : String) :
    ∀ l : List String, l.Pairwise (· ≤ ·) → (insertAsc x l).Pairwise (· ≤ ·) := by
  intro l
  induction l with
  | nil => intro _; simp [insertAsc]
  | cons y l ih =>
    intro h
    rw [List.pairwise_cons] at h
    show (if x ≤ y then x :: y :: l else y :: insertAsc x l).Pairwise (· ≤ ·)
    by_cases hxy : x ≤ y
    · rw [if_pos hxy]
      rw [List.pairwise_cons]
      constructor
      · intro z hz
        rcases List.mem_cons.mp hz with hz | hz
        · rw [hz]; exact hxy
        · exact le_trans hxy (h.1 z hz)
      · rw [List.pairwise_cons]
        exact h
    · rw [if_neg hxy]
      rw [List.pairwise_cons]
      constructor
      · intro z hz
        rcases List.mem_cons.mp ((insertAsc_perm x l).mem_iff.mp hz) with hz2 | hz2
        · rw [hz2]; exact le_of_lt (lt_of_not_le hxy)
        · exact h.1 z hz2
      · exact ih h.2

theorem sortAsc_pairwise : ∀ l : List String, (sortAsc l).Pairwise (· ≤ ·) := by
  intro l
  induction l with
  | nil => exact List.Pairwise.nil
  | cons x l ih => exact insertAsc_pairwise x (sortAsc l) ih

theorem groupLabels_pairwise (records : List (String × ℚ)) :
    (groupLabels records).Pairwise (· < ·) := by
  have hnd : (groupLabels records).Nodup := by
    have h1 : ((records.map Prod.fst).dedup).Nodup := List.nodup_dedup _
    exact (sortAsc_perm _).symm.nodup h1
  have hle := sortAsc_pairwise (records.map Prod.fst).dedup
  exact (hle.and hnd).imp (fun hab => lt_of_le_of_ne hab.1 hab.2)

theorem grouped_pairwise_fst (records : List (String × ℚ)) :
    (grouped records).Pairwise (fun a b => a.1 < b.1) :=
  (groupLabels_pairwise records).map _ (fun _ _ h => h)

theorem insertDesc_perm (x : String × ℚ) :
    ∀ l : List (String × ℚ), List.Perm (insertDesc x l) (x :: l) := by
  intro l
  induction l with
  | nil => exact List.Perm.refl _
  | cons y l ih =>
    show List.Perm (if y.2 ≤ x.2 then x :: y :: l else y :: insertDesc x l) (x :: y :: l)
    by_cases h : y.2 ≤ x.2
    · rw [if_pos h]
    · rw [if_neg h]
      exact (ih.cons y).trans (List.Perm.swap x y l)

theorem sortDesc_perm : ∀ l : List (String × ℚ), List.Perm (sortDesc l) l := by
  intro l
  induction l with
  | nil => exact List.Perm.refl _
  | cons x l ih =>
    show List.Perm (insertDesc x (sortDesc l)) (x :: l)
    exact (insertDesc_perm x (sortDesc l)).trans (ih.cons x)

theorem rankRel_snd_le {a b : String × ℚ} (h : rankRel a b) : b.2 ≤ a.2 := by
  rcases h with h | h
  · exact le_of_lt h
  · exact le_of_eq h.1.symm

theorem insertDesc_pairwise (x : String × ℚ) :
    ∀ l : List (String × ℚ), l.Pairwise rankRel → (∀ y ∈ l, x.1 < y.1) →
      (insertDesc x l).Pairwise rankRel := by
  intro l
  induction l with
  | nil => intro _ _; simp [insertDesc, List.pairwise_cons]
  | cons y l ih =>
    intro h hx
    rw [List.pairwise_cons] at h
    show (if y.2 ≤ x.2 then x :: y :: l else y :: insertDesc x l).Pairwise rankRel
    by_cases hxy : y.2 ≤ x.2
    · rw [if_pos hxy]
      rw [List.pairwise_cons]
      constructor
      · intro z hz
        rcases List.mem_cons.mp hz with hz | hz
        · subst hz
          rcases lt_or_eq_of_le hxy with hlt | heq
          · exact Or.inl hlt
          · exact Or.inr ⟨heq.symm, hx z (by simp)⟩
        · have hzy : z.2 ≤ y.2 := rankRel_snd_le (h.1 z hz)
          rcases lt_or_eq_of_le (le_trans hzy hxy) with hlt | heq
          · exact Or.inl hlt
          · exact Or.inr ⟨heq.symm, hx z (by simp [hz])⟩
      · rw [List.pairwise_cons]
        exact h
    · rw [if_neg hxy]
      rw [List.pairwise_cons]
      constructor
      · intro z hz
        rcases List.mem_cons.mp ((insertDesc_perm x l).mem_iff.mp hz) with hz2 | hz2
        · subst hz2
          exact Or.inl (lt_of_not_le hxy)
        · exact h.1 z hz2
      · exact ih h.2 (fun z hz => hx z (by simp [hz]))

theorem sortDesc_pairwise :
    ∀ l : List (String × ℚ), l.Pairwise (fun a b => a.1 < b.1) →
      (sortDesc l).Pairwise rankRel := by
  intro l
  induction l with
  | nil => intro _; exact List.Pairwise.nil
  | cons x l ih =>
    intro h
    rw [List.pairwise_cons] at h
    show (insertDesc x (sortDesc l)).Pairwise rankRel
    exact insertDesc_pairwise x (sortDesc l) (ih h.2)
      (fun y hy => h.1 y ((sortDesc_perm l).mem_iff.mp hy))

theorem mem_topAreas {records : List (String × ℚ)} {x : String × ℚ}
    (h : x ∈ topAreas records) : x ∈ grouped records :=
  (sortDesc_perm (grouped records)).subset ((List.take_sublist 20 _).subset h)

theorem colorizeGo_length : ∀ (k : ℕ) (l : List (String × ℚ)),
    (colorizeGo k l).length = l.length := by
  intro k l
  induction l generalizing k with
  | nil => rfl
  | cons e es ih => simp [colorizeGo, ih]

theorem colorizeGo_get : ∀ (l : List (String × ℚ)) (k i : ℕ)
    (h1 : i < (colorizeGo k l).length) (h2 : i < l.length),
    (colorizeGo k l).get ⟨i, h1⟩ =
      ((l.get ⟨i, h2⟩).1, (l.get ⟨i, h2⟩).2, if k + i < 5 then "red" else "blue") := by
  intro l
  induction l with
  | nil => intro k i h1 h2; exact absurd h2 (by simp)
  | cons e es ih =>
    intro k i h1 h2
    cases i with
    | zero => simp [colorizeGo]
    | succ i =>
      have h1a : i < (colorizeGo (k + 1) es).length := by
        rw [colorizeGo_length]
        rw [colorizeGo_length] at h1
        exact Nat.lt_of_succ_lt_succ h1
      have h2a : i < es.length := Nat.lt_of_succ_lt_succ h2
      have := ih (k + 1) i h1a h2a
      have hk : k + 1 + i = k + (i + 1) := by omega
      rw [hk] at this
      exact this

theorem grouped_length (records : List (String × ℚ)) :
    (grouped records).length = (groupLabels records).length := List.length_map _ _

theorem topAreas_length (records : List (String × ℚ)) :
    (topAreas records).length = min (groupLabels records).length 20 := by
  unfold topAreas
  rw [List.length_take, (sortDesc_perm _).length_eq, grouped_length]
  exact Nat.min_comm _ _

theorem topAreasColored_length (records : List (String × ℚ)) :
    (topAreasColored records).length = min (groupLabels records).length 20 := by
  have h : (topAreasColored records).length = (topAreas records).length :=
    colorizeGo_length 0 _
  rw [h, topAreas_length]

/-! ### The claims -/

/-- C2: the engine returns exactly `min n 20` entries for `n` distinct
groups; every returned entry is one of the grouped (label, mean) rows;
every dropped row has a mean at most that of every returned row; and when
`n ≤ 20` every group appears in the output. -/
theorem truncation_top20 (records : List (String × ℚ)) :
    (topAreas records).length = min (groupLabels records).length 20 ∧
      (∀ x ∈ topAreas records, x ∈ grouped records) ∧
      (∀ x ∈ topAreas records, ∀ y ∈ (sortDesc (grouped records)).drop 20, y.2 ≤ x.2) ∧
      ((groupLabels records).length ≤ 20 → ∀ x ∈ grouped records, x ∈ topAreas records) := by
  refine ⟨topAreas_length records, fun x hx => mem_topAreas hx, ?_, ?_⟩
  · intro x hx y hy
    have hp := sortDesc_pairwise (grouped records) (grouped_pairwise_fst records)
    rw [← List.take_append_drop 20 (sortDesc (grouped records))] at hp
    rw [List.pairwise_append] at hp
    exact rankRel_snd_le (hp.2.2 x hx y hy)
  · intro hlen x hx
    have hlen2 : (sortDesc (grouped records)).length ≤ 20 := by
      rw [(sortDesc_perm _).length_eq, grouped_length]
      exact hlen
    show x ∈ (sortDesc (grouped records)).take 20
    rw [List.take_of_length_le hlen2]
    exact (sortDesc_perm _).symm.subset hx

/-- Witness for C2: two distinct groups, both below the cutoff, so both
grouped rows appear in the output. -/
theorem truncation_top20_witness :
    ("B", (20:ℚ)) ∈ grouped [("A", 10), ("B", 20)] ∧
      ("B", (20:ℚ)) ∈ topAreas [("A", 10), ("B", 20)] := by
  have hmem : ("B", (20:ℚ)) ∈ grouped [("A", 10), ("B", 20)] := by
    norm_num +decide [grouped, groupLabels, groupMean, sortAsc, insertAsc, List.dedup,
      List.pwFilter]
  have hlen : (groupLabels [("A", (10:ℚ)), ("B", 20)]).length ≤ 20 := by
    norm_num +decide [groupLabels, sortAsc, insertAsc, List.dedup, List.pwFilter]
  exact ⟨hmem, (truncation_top20 [("A", 10), ("B", 20)]).2.2.2 hlen _ hmem⟩

/-- C3: for a record whose indicator fields contain exactly one true (1)
field, the label reconstructor selects that field (first-maximum in column
order), strips the leading `NEIGHBOURHOOD_<code>_` head and the trailing
` (<num>)` tail from its name, and returns the remaining display name.
The two boolean side conditions say that neither regex fires inside the
display name itself, which is what "leading" and "trailing" mean. -/
theorem label_roundtrip (pre post : List (String × ℚ)) (name : String)
    (code disp num : List Char)
    (hpre : ∀ p ∈ pre, p.2 = 0) (hpost : ∀ p ∈ post, p.2 = 0)
    (hname : name.data = nbLit ++ (code ++ '_' :: (disp ++ ' ' :: '(' :: (num ++ [')']))))
    (hcode : code.isEmpty = false) (hcodeD : ∀ c ∈ code, Char.isDigit c = true)
    (hnum : num.isEmpty = false) (hnumD : ∀ c ∈ num, Char.isDigit c = true)
    (hnb : noMatch matchNb (disp ++ ' ' :: '(' :: (num ++ [')'])) = true)
    (hsk : scanKeeps matchParen disp (' ' :: '(' :: (num ++ [')'])) = true) :
    idxmaxRow (pre ++ (name, 1) :: post) = some name ∧
      reconstructLabel (pre ++ (name, 1) :: post) = String.mk disp := by
  have hsel := idxmaxRow_onehot pre post name hpre hpost
  refine ⟨hsel, ?_⟩
  unfold reconstructLabel
  rw [hsel]
  exact stripLabel_eq code disp num name hname hcode hcodeD hnum hnumD hnb hsk

/-- Witness for C3 at the specification's example: the only true indicator
field is `NEIGHBOURHOOD_07_Downtown (123)` and the reconstructed label is
exactly `"Downtown"`. -/
theorem label_roundtrip_witness :
    idxmaxRow [("NEIGHBOURHOOD_05_Alderwood (20)", 0),
        ("NEIGHBOURHOOD_07_Downtown (123)", 1)] =
      some "NEIGHBOURHOOD_07_Downtown (123)" ∧
      reconstructLabel [("NEIGHBOURHOOD_05_Alderwood (20)", 0),
        ("NEIGHBOURHOOD_07_Downtown (123)", 1)] = "Downtown" := by
  have h := label_roundtrip [("NEIGHBOURHOOD_05_Alderwood (20)", 0)] []
    "NEIGHBOURHOOD_07_Downtown (123)" "07".toList "Downtown".toList "123".toList
    (by intro p hp; simp at hp; rw [hp]) (by intro p hp; simp at hp)
    (by decide) (by decide) (by decide) (by decide) (by decide) (by decide) (by decide)
  exact h

/-- C4 (code defect): with every retained entry carrying the identical
probability 42, the unguarded Step-6 normalization of `final.py` divides
zero by zero for every entry; under numpy this raises nothing but yields a
NaN radius (modelled `none`) — not the `min_radius` 200 the specification
mandates. -/
theorem radius_degenerate_nan :
    addRadius [("A", 42), ("B", 42)] = [("A", 42, none), ("B", 42, none)] := by
  norm_num [addRadius, npDiv]

/-- C6: the aggregation engine maps the empty record sequence (the
missing-dataset fallback) to an empty ranking, with no error. -/
theorem empty_input_ranking : topAreas [] = [] ∧ topAreasColored [] = [] :=
  ⟨rfl, rfl⟩

/-- C7: in the colored ranking, exactly the entries at ranks 1 through 5
(indices 0 to 4) carry the red highlight and all later entries are blue;
when fewer than five entries exist, every entry is red. -/
theorem highlight_split (records : List (String × ℚ)) (i : ℕ)
    (h : i < (topAreasColored records).length) :
    ((topAreasColored records).get ⟨i, h⟩).2.2 = if i < 5 then "red" else "blue" := by
  have h2 : i < (topAreas records).length := by
    rw [← colorizeGo_length 0 (topAreas records)]
    exact h
  have hg := colorizeGo_get (topAreas records) 0 i h h2
  rw [show (0:ℕ) + i = i from by omega] at hg
  show ((colorizeGo 0 (topAreas records)).get ⟨i, h⟩).2.2 = if i < 5 then "red" else "blue"
  rw [hg]

/-- Witness for C7 on six distinct groups: rank 1 is red and rank 6 is
blue. -/
theorem highlight_split_witness :
    ((topAreasColored [("A", 6), ("B", 5), ("C", 4), ("D", 3), ("E", 2), ("F", 1)]).get
        ⟨0, by
          rw [topAreasColored_length]
          norm_num +decide [groupLabels, sortAsc, insertAsc, List.dedup, List.pwFilter]⟩).2.2 =
      "red" ∧
      ((topAreasColored [("A", 6), ("B", 5), ("C", 4), ("D", 3), ("E", 2), ("F", 1)]).get
        ⟨5, by
          rw [topAreasColored_length]
          norm_num +decide [groupLabels, sortAsc, insertAsc, List.dedup, List.pwFilter]⟩).2.2 =
      "blue" := by
  constructor
  · rw [highlight_split]
    norm_num
  · rw [highlight_split]
    norm_num

/-- C8: every entry of the ranking carries the arithmetic mean of the
severity probabilities of the records assigned to its label, and the
specification's example group with probabilities [10, 20, 30] aggregates
to exactly 20. -/
theorem mean_correct (records : List (String × ℚ)) :
    (∀ x ∈ topAreas records,
        x.2 = ((records.filter (fun r => r.1 = x.1)).map Prod.snd).sum /
          ((records.filter (fun r => r.1 = x.1)).length : ℚ)) ∧
      topAreas [("A", 10), ("A", 20), ("A", 30)] = [("A", 20)] := by
  constructor
  · intro x hx
    rcases List.mem_map.mp (mem_topAreas hx) with ⟨l, _, hxl⟩
    rw [← hxl]
    rfl
  · norm_num +decide [topAreas, grouped, groupLabels, groupMean, sortAsc, insertAsc,
      sortDesc, insertDesc, List.dedup, List.pwFilter]

/-- Witness for C8: the entry ("A", 20) of the example ranking satisfies
the mean formula. -/
theorem mean_correct_witness :
    ("A", (20:ℚ)) ∈ topAreas [("A", 10), ("A", 20), ("A", 30)] ∧
      (("A", (20:ℚ)).2 =
        (([("A", (10:ℚ)), ("A", 20), ("A", 30)].filter
            (fun r => r.1 = ("A", (20:ℚ)).1)).map Prod.snd).sum /
          (([("A", (10:ℚ)), ("A", 20), ("A", 30)].filter
            (fun r => r.1 = ("A", (20:ℚ)).1)).length : ℚ)) := by
  have h := mean_correct [("A", 10), ("A", 20), ("A", 30)]
  have hmem : ("A", (20:ℚ)) ∈ topAreas [("A", 10), ("A", 20), ("A", 30)] := by
    rw [h.2]
    simp
  exact ⟨hmem, h.1 ("A", 20) hmem⟩

/-- C5 as corrected, matching what `final.py` actually does.  When no
indicator column exists, a warning is surfaced but the `NEIGHBOURHOOD`
column is never created, so `groupby` raises a KeyError instead of
returning an empty ranking.  When indicator columns exist but a required
feature column is missing, a warning is surfaced, every record is scored
0, and the engine returns the ordinary (generally non-empty) ranking of
the groups rather than an empty one. -/
theorem failure_semantics_amended (features : List String) (model : List ℚ → ℚ) (df : DataF) :
    ((neighColsOf df).isEmpty = true →
        (finalRun features model df).2 = Except.error "KeyError: NEIGHBOURHOOD" ∧
          warnNoNeigh ∈ (finalRun features model df).1) ∧
      ((neighColsOf df).isEmpty = false →
        features.all (fun c => (df.cols ++ ["NEIGHBOURHOOD"]).contains c) = false →
          (finalRun features model df).2 =
            Except.ok (topAreasColored (df.rows.map (fun row =>
              (labelOfRow (neighColsOf df) df.cols row, 0)))) ∧
            warnNoFeatures ∈ (finalRun features model df).1) := by
  constructor
  · intro h
    constructor
    · simp [finalRun, h]
    · simp [finalRun, h]
  · intro h1 h2
    have hcond : ¬ ∀ x ∈ features, x ∈ df.cols ∨ x = "NEIGHBOURHOOD" := by
      simpa using h2
    constructor
    · simp [finalRun, h1, hcond]
    · simp [finalRun, h1, hcond]

/-- Witness for C5 (amended): both branches exercised at concrete inputs,
discharging the two boolean hypotheses. -/
theorem failure_semantics_witness :
    ((finalRun ["f1"] (fun _ => 0) ⟨["x1"], [[1]]⟩).2 =
        Except.error "KeyError: NEIGHBOURHOOD" ∧
        warnNoNeigh ∈ (finalRun ["f1"] (fun _ => 0) ⟨["x1"], [[1]]⟩).1) ∧
      ((finalRun ["f1"] (fun _ => 0) ⟨["NEIGHBOURHOOD_01_A (1)"], [[1]]⟩).2 =
          Except.ok (topAreasColored (([[(1:ℚ)]]).map (fun row =>
            (labelOfRow (neighColsOf ⟨["NEIGHBOURHOOD_01_A (1)"], [[1]]⟩)
              ["NEIGHBOURHOOD_01_A (1)"] row, 0)))) ∧
        warnNoFeatures ∈ (finalRun ["f1"] (fun _ => 0) ⟨["NEIGHBOURHOOD_01_A (1)"], [[1]]⟩).1) :=
  ⟨(failure_semantics_amended ["f1"] (fun _ => 0) ⟨["x1"], [[1]]⟩).1 (by decide),
    (failure_semantics_amended ["f1"] (fun _ => 0) ⟨["NEIGHBOURHOOD_01_A (1)"], [[1]]⟩).2
      (by decide) (by decide)⟩

/-- Counterexample to C5 as stated: on a dataset whose only column is the
indicator `NEIGHBOURHOOD_01_A (1)` and whose required feature column `f1`
is absent, the engine returns a one-entry ranking (mean 0), not an empty
one; and on a dataset with no indicator column at all it raises (KeyError)
instead of emitting an empty ranking. -/
theorem ranking_not_empty_counterex :
    (finalRun ["f1"] (fun _ => 0) ⟨["NEIGHBOURHOOD_01_A (1)"], [[1]]⟩).2 =
        Except.ok [("A", 0, "red")] ∧
      (finalRun ["f1"] (fun _ => 0) ⟨["x1"], [[1]]⟩).2 =
        Except.error "KeyError: NEIGHBOURHOOD" := by
  constructor
  · norm_num +decide [finalRun, neighColsOf, isNbCol, labelOfRow, reconstructLabel, idxmaxRow,
      idxmaxGo, colVal, topAreasColored, colorizeGo, topAreas, grouped, groupLabels, groupMean,
      sortAsc, insertAsc, sortDesc, insertDesc, List.dedup, List.pwFilter]
  · norm_num +decide [finalRun, neighColsOf, isNbCol]

/-- C9 as corrected: provided at least one neighborhood indicator column
is present, a dataset missing a required feature column does not abort the
pipeline — every record is scored 0, the warning is surfaced, and the run
proceeds to a ranking. -/
theorem score_zero_amended (features : List String) (model : List ℚ → ℚ) (df : DataF)
    (hneigh : (neighColsOf df).isEmpty = false)
    (hmiss : features.all (fun c => (df.cols ++ ["NEIGHBOURHOOD"]).contains c) = false) :
    (finalRun features model df).2 =
      Except.ok (topAreasColored (df.rows.map (fun row =>
        (labelOfRow (neighColsOf df) df.cols row, 0)))) ∧
      warnNoFeatures ∈ (finalRun features model df).1 := by
  have hcond : ¬ ∀ x ∈ features, x ∈ df.cols ∨ x = "NEIGHBOURHOOD" := by
    simpa using hmiss
  constructor
  · simp [finalRun, hneigh, hcond]
  · simp [finalRun, hneigh, hcond]

/-- Witness for C9 (amended) at a concrete dataset with one indicator
column, one data column, and a missing feature column. -/
theorem score_zero_witness :
    (finalRun ["missing"] (fun _ => 1) ⟨["NEIGHBOURHOOD_02_B (2)", "g"], [[1, 3]]⟩).2 =
        Except.ok (topAreasColored (([[(1:ℚ), 3]]).map (fun row =>
          (labelOfRow (neighColsOf ⟨["NEIGHBOURHOOD_02_B (2)", "g"], [[1, 3]]⟩)
            ["NEIGHBOURHOOD_02_B (2)", "g"] row, 0)))) ∧
      warnNoFeatures ∈
        (finalRun ["missing"] (fun _ => 1) ⟨["NEIGHBOURHOOD_02_B (2)", "g"], [[1, 3]]⟩).1 :=
  score_zero_amended ["missing"] (fun _ => 1) ⟨["NEIGHBOURHOOD_02_B (2)", "g"], [[1, 3]]⟩
    (by decide) (by decide)

/-- Counterexample to C9 as stated: a dataset missing the required feature
column `f1` and holding no indicator column makes the run abort with a
KeyError at the grouping step, so "the pipeline does not abort" fails
without the indicator-column proviso. -/
theorem score_zero_counterex :
    (finalRun ["f1"] (fun _ => 0) ⟨["x2"], [[2]]⟩).2 =
      Except.error "KeyError: NEIGHBOURHOOD" := by
  norm_num +decide [finalRun, neighColsOf, isNbCol]

/-- C10: on every dataset, model and feature-column list on which both
scripts run without error (indicator columns present and all feature
columns present), `final.py` and `polish.py` compute identical rankings:
the same labels, the same mean probabilities, the same order, and the
same red/blue highlight assignment. -/
theorem final_polish_agree (features : List String) (model : List ℚ → ℚ) (df : DataF)
    (hneigh : (neighColsOf df).isEmpty = false)
    (hfeat : features.all (fun c => df.cols.contains c) = true) :
    (finalRun features model df).2 = polishRun features model df ∧
      polishRun features model df = Except.ok (topAreasColored (df.rows.map (fun row =>
        (labelOfRow (neighColsOf df) df.cols row,
          100 * model (features.map (colVal df.cols row)))))) := by
  have hftrue : ∀ x ∈ features, x ∈ df.cols := by simpa using hfeat
  have hcond : ∀ x ∈ features, x ∈ df.cols ∨ x = "NEIGHBOURHOOD" :=
    fun x hx => Or.inl (hftrue x hx)
  have hpol : polishRun features model df = Except.ok (topAreasColored (df.rows.map (fun row =>
      (labelOfRow (neighColsOf df) df.cols row,
        100 * model (features.map (colVal df.cols row)))))) := by
    simp [polishRun, hneigh]
    intro x hx hnot
    exact absurd (hftrue x hx) hnot
  refine ⟨?_, hpol⟩
  rw [hpol]
  simp [finalRun, hneigh, eq_true hcond]

/-- Witness for C10 at a concrete dataset with one indicator column and
one feature column: both scripts produce the identical one-entry red
ranking with mean 50. -/
theorem final_polish_agree_witness :
    (finalRun ["f1"] (fun _ => (1:ℚ)/2) ⟨["NEIGHBOURHOOD_01_A (1)", "f1"], [[1, 7]]⟩).2 =
        polishRun ["f1"] (fun _ => (1:ℚ)/2) ⟨["NEIGHBOURHOOD_01_A (1)", "f1"], [[1, 7]]⟩ ∧
      polishRun ["f1"] (fun _ => (1:ℚ)/2) ⟨["NEIGHBOURHOOD_01_A (1)", "f1"], [[1, 7]]⟩ =
        Except.ok [("A", 50, "red")] := by
  have h := final_polish_agree ["f1"] (fun _ => (1:ℚ)/2)
    ⟨["NEIGHBOURHOOD_01_A (1)", "f1"], [[1, 7]]⟩ (by decide) (by decide)
  refine ⟨h.1, h.2.trans ?_⟩
  norm_num +decide [labelOfRow, neighColsOf, isNbCol, reconstructLabel, idxmaxRow,
    idxmaxGo, colVal, topAreasColored, colorizeGo, topAreas, grouped, groupLabels, groupMean,
    sortAsc, insertAsc, sortDesc, insertDesc, List.dedup, List.pwFilter]
